import Mathlib

/-!
Verification of the bake-action orchestration core (src/src/main.ts).

The source is a TypeScript GitHub Action driving `docker buildx bake`.
We embed its main phase (print pass, execution pass, error classification,
metadata resolution, build-reference resolution, deferred throw) and its
post phase (summary chain, temp-directory cleanup) as pure Lean functions
producing an ordered trace of observable actions, and prove the spec's
claims about them.

Strings flowing through the error-message extraction are modelled as
`List Char`, so that JavaScript's regex and `trim` semantics can be stated
character by character.
-/

/-- JavaScript `\s` (WhiteSpace ∪ LineTerminator), the class used both by
the regex `\s*` and by `String.prototype.trim`. -/
def jsWhitespace (c : Char) : Bool :=
  c = ' ' || c = '\t' || c = '\n' || c = '\x0b' || c = '\x0c' || c = '\r' ||
  c = '\u00A0' || c = '\u1680' || ('\u2000' ≤ c && c ≤ '\u200A') ||
  c = '\u2028' || c = '\u2029' || c = '\u202F' || c = '\u205F' || c = '\u3000' ||
  c = '\uFEFF'

/-- JavaScript LineTerminator: the characters NOT matched by `.` in a regex
without the `s` flag. -/
def isLineTerm (c : Char) : Bool :=
  c = '\n' || c = '\r' || c = '\u2028' || c = '\u2029'

/-- Remove the maximal whitespace suffix (the right half of `trim`). -/
def dropTrailingWs (l : List Char) : List Char :=
  (l.reverse.dropWhile jsWhitespace).reverse

/-- JavaScript `String.prototype.trim`: strip whitespace from both ends. -/
def jsTrim (l : List Char) : List Char :=
  dropTrailingWs (l.dropWhile jsWhitespace)

/-- `regexHit s` holds iff the pattern `(.*)\s*$` (anchored at the end of
input, `.` excluding line terminators) matches starting exactly at the head
of `s`, i.e. `s` factors as a line-terminator-free run followed by a
whitespace run.  Executable form: every line terminator of `s` is followed
by whitespace only.  `regexHit_iff_factor` below proves the two readings
agree. -/
def regexHit : List Char → Bool
  | [] => true
  | c :: rest => if isLineTerm c then rest.all jsWhitespace else regexHit rest

/-- JavaScript `s.match(/(.*)\s*$/)`: scan positions left to right, return
the full match `match[0]` (which, because of the `$` anchor, always extends
to the end of the string) at the first position where the pattern matches;
`none` models a `null` return (no position matches). -/
def regexLastMatch : List Char → Option (List Char)
  | [] => if regexHit [] then some [] else none
  | c :: rest => if regexHit (c :: rest) then some (c :: rest) else regexLastMatch rest

/-- The interpolated fragment of line 139 of src/src/main.ts:
`res.stderr.match(/(.*)\s*$/)?.[0]?.trim() ?? 'unknown error'`.
The `?? 'unknown error'` branch fires only when the match is `null`
(or the optional-chained fields are missing): `trim` itself always yields a
string, so an empty trim result does NOT fall back. -/
def extractMsg (stderr : List Char) : List Char :=
  match regexLastMatch stderr with
  | some m => jsTrim m
  | none => "unknown error".data

/-- The full message of the deferred error of line 139:
`buildx bake failed with: ${...}`. -/
def bakeFailMsg (stderr : List Char) : List Char :=
  "buildx bake failed with: ".data ++ extractMsg stderr

/-- Split a character list into its lines, line terminators acting as
separators (spec-side notion, used to state what "the last non-empty line"
means). -/
def splitLines : List Char → List (List Char)
  | [] => [[]]
  | c :: rest =>
    if isLineTerm c then [] :: splitLines rest
    else (c :: (splitLines rest).headI) :: (splitLines rest).tail

/-- Spec-side: the last line of `l` containing a non-whitespace character,
if any. -/
def lastNonBlankLine (l : List Char) : Option (List Char) :=
  ((splitLines l).filter (fun L => !L.all jsWhitespace)).getLast?

/-- Spec-side extraction: the trimmed last non-blank line, or `[]` when the
input is entirely whitespace. -/
def specLastLineTrimmed (stderr : List Char) : List Char :=
  match lastNonBlankLine stderr with
  | some L => jsTrim L
  | none => []

example : extractMsg "warning\nerror: bad \n".data = "error: bad".data := by decide
example : extractMsg " ".data = [] := by decide
example : extractMsg "a\n  \n".data = "a".data := by decide
example : specLastLineTrimmed "warning\nerror: bad \n".data = "error: bad".data := by
  decide

/-! ## Data model of the orchestration -/

/-- Result of `Exec.getExecOutput` on the execution pass (line 133):
exit code plus captured stderr (stdout plays no role in the claims). -/
structure ExecOutput where
  exitCode : Int
  stderr : List Char
deriving DecidableEq

/-- One record of the build engine's persisted run-history store
(`Buildx.refsDir`), keyed by record identifier, builder name and creation
time. -/
structure HistoryRecord where
  ref : String
  builderName : String
  createdAt : Nat
deriving DecidableEq

/-- The environment a run of the main phase observes: the assembled command
line, the outcomes of the two subprocess passes, the metadata document, and
the history store.  Quantifying theorems over `Env` quantifies over every
possible behaviour of the external collaborators. -/
structure Env where
  command : String
  args : List String
  workdir : String
  buildEnv : List (String × String)
  /-- Exit code of the print pass; `Exec.exec` throws when it is non-zero. -/
  printExitCode : Int
  /-- Captured result of the execution pass (`ignoreReturnCode: true`). -/
  execRes : ExecOutput
  /-- `toolkit.buildxBake.resolveMetadata()`; `none` models `undefined`. -/
  metadata : Option String
  /-- `toolkit.buildxBake.resolveRefs()`; `none` models `undefined`; note
  `some []` (an empty array) is truthy in JavaScript. -/
  metaRefs : Option (List String)
  /-- `inputs.builder`; the empty string is the action's "not provided"
  default and is falsy in JavaScript (`if (!builder)`). -/
  inputBuilder : String
  /-- Name reported by `toolkit.builder.inspect()` with no argument. -/
  defaultBuilderName : String
  history : List HistoryRecord
  /-- `startedTime`, captured at line 24 before any build step. -/
  startedTime : Nat
deriving DecidableEq

/-- Observable actions of the two phases, in execution order. -/
inductive Event where
  | execPrint (command : String) (args : List String) (cwd : String)
      (env : List (String × String))
  | execRun (command : String) (args : List String) (cwd : String)
      (env : List (String × String))
  | resolveMetadataEv
  | outputMetadata (doc : String)
  | inspectDefaultBuilder
  | queryHistory (builderName : String) (since : Nat)
  | logRef (r : String)
  | setBuildRefsEv (refs : List String)
  | warnNoBuildRefs
  | throwErrorEv (msg : List Char)
  | exportEv (refs : List String)
  | uploadEv
  | writeSummaryEv
  | warnEv (msg : List Char)
  | infoSummaryDisabled
  | infoCloudDriver
  | rmTmpDir (dir : String)
deriving DecidableEq

/-- How the main phase ends. -/
inductive MainOutcome where
  /-- Fell off the end of the callback with no throw. -/
  | success
  /-- `Exec.exec` threw on the print pass (non-zero exit), aborting the
  phase before the execution pass. -/
  | printError
  /-- The deferred `throw err` of line 163. -/
  | bakeError (msg : List Char)
deriving DecidableEq

/-- Modelled from the spec: `Buildx.refs({dir, builderName, since})` is
external toolkit code (not under src/); spec section 6 describes the store
as "a directory-backed record store keyed by builder name and creation
time", "queried for all records since timestamp T for builder B", and
section 4.4 as returning "all records whose builder matches and whose
creation time is at or after `since`".  Returns the identifiers of the
matching records in store order. -/
def buildxRefsQuery (history : List HistoryRecord) (builderName : String)
    (since : Nat) : List String :=
  (history.filter
      (fun r => r.builderName == builderName && decide (since ≤ r.createdAt))).map
    HistoryRecord.ref

/-- `buildRefs` (src/src/main.ts lines 208-231): the pair of the external
calls it performs and the array it returns.  `if (metaRefs)` is JavaScript
truthiness: an array value — even an empty one — is truthy, `undefined`
(our `none`) is falsy. -/
def buildRefsModel (env : Env) : List Event × List String :=
  match env.metaRefs with
  | some rs => ([], rs)
  | none =>
    let inspected :=
      if env.inputBuilder = "" then ([Event.inspectDefaultBuilder], env.defaultBuilderName)
      else ([], env.inputBuilder)
    (inspected.1 ++ [Event.queryHistory inspected.2 env.startedTime],
      buildxRefsQuery env.history inspected.2 env.startedTime)

/-- The build tail of the main phase (src/src/main.ts lines 125-164): the
print pass, the execution pass with its error classification, metadata
resolution, the build-references group, and the deferred throw.  Returns
the ordered trace of observable actions and the phase outcome. -/
def mainPhase (env : Env) : List Event × MainOutcome :=
  let printEv := Event.execPrint env.command (env.args ++ ["--print"])
    env.workdir env.buildEnv
  if env.printExitCode ≠ 0 then
    ([printEv], MainOutcome.printError)
  else
    let runEv := Event.execRun env.command env.args env.workdir env.buildEnv
    let metaEvs : List Event :=
      Event.resolveMetadataEv ::
        (match env.metadata with
          | some doc => [Event.outputMetadata doc]
          | none => [])
    let resolved := buildRefsModel env
    -- `const refs = await buildRefs(...)` has type `Array<string>`: the
    -- value is never `undefined`, so we wrap it in `some`; `if (refs)`
    -- then tests JavaScript truthiness, for which `none` (`undefined`)
    -- is the only falsy case of this type.
    let refsVal : Option (List String) := some resolved.2
    let groupEvs : List Event :=
      match refsVal with
      | some rs => (rs.map Event.logRef) ++ [Event.setBuildRefsEv rs]
      | none => [Event.warnNoBuildRefs]
    let trace := printEv :: runEv :: (metaEvs ++ resolved.1 ++ groupEvs)
    if 0 < env.execRes.stderr.length ∧ env.execRes.exitCode ≠ 0 then
      (trace ++ [Event.throwErrorEv (bakeFailMsg env.execRes.stderr)],
        MainOutcome.bakeError (bakeFailMsg env.execRes.stderr))
    else (trace, MainOutcome.success)

/-- `stateHelper.builder` as read by the post phase. -/
structure BuilderInfo where
  name : String
  driver : String
deriving DecidableEq

/-- The slice of the persisted cross-phase state the post phase reads. -/
structure PersistedState where
  buildRefs : List String
  tmpDir : String
  builder : Option BuilderInfo
deriving DecidableEq

/-- The environment the post phase observes: the summary-disable variable
and which step of the export/upload/summary chain throws (with what
message), if any. -/
structure PostEnv where
  /-- `process.env.DOCKER_BUILD_NO_SUMMARY`; `none` models an unset
  variable. -/
  noSummaryEnv : Option String
  /-- `Util.parseBool` (external toolkit code) applied to that value. -/
  parsedNoSummary : Bool
  exportFail : Option (List Char)
  uploadFail : Option (List Char)
  summaryFail : Option (List Char)
deriving DecidableEq

/-- JavaScript truthiness of a possibly-undefined string: `undefined` and
the empty string are falsy. -/
def jsTruthyStr : Option String → Bool
  | none => false
  | some s => !(s == "")

/-- `stateHelper.builder && stateHelper.builder.driver === 'cloud'`
(line 174): truthiness of the possibly-absent builder, then a strict
string comparison of its driver. -/
def cloudDriver : Option BuilderInfo → Bool
  | some b => b.driver == "cloud"
  | none => false

/-- The try-block of the post phase (lines 178-197): export, then upload,
then write the summary; the first step that throws ends the chain and its
message is reported via `core.warning` by the catch. -/
def summaryChain (refs : List String) (env : PostEnv) : List Event :=
  Event.exportEv refs ::
    match env.exportFail with
    | some m => [Event.warnEv m]
    | none =>
      Event.uploadEv ::
        match env.uploadFail with
        | some m => [Event.warnEv m]
        | none =>
          Event.writeSummaryEv ::
            match env.summaryFail with
            | some m => [Event.warnEv m]
            | none => []

/-- The post phase (src/src/main.ts lines 167-205): the summary group,
guarded by non-empty build refs, the disable flag and the cloud driver,
followed by the unconditional temp-directory cleanup. -/
def postPhase (st : PersistedState) (env : PostEnv) : List Event :=
  let summaryEvs : List Event :=
    if 0 < st.buildRefs.length then
      if jsTruthyStr env.noSummaryEnv && env.parsedNoSummary then
        [Event.infoSummaryDisabled]
      else if cloudDriver st.builder then
        [Event.infoCloudDriver]
      else summaryChain st.buildRefs env
    else []
  let rmEvs : List Event :=
    if 0 < st.tmpDir.length then [Event.rmTmpDir st.tmpDir] else []
  summaryEvs ++ rmEvs

/-! ## Concrete scenarios (used by witnesses and counterexamples) -/

/-- A quiet baseline run: both passes succeed, no metadata, empty history. -/
def envBase : Env :=
  { command := "docker", args := ["buildx", "bake"], workdir := ".",
    buildEnv := [("BUILDX_BAKE_GIT_AUTH_TOKEN", "tok")], printExitCode := 0,
    execRes := { exitCode := 0, stderr := [] },
    metadata := none, metaRefs := none, inputBuilder := "",
    defaultBuilderName := "default", history := [], startedTime := 5 }

/-- Execution pass fails loudly; metadata still yields a ref. -/
def envFatal : Env :=
  { envBase with
    execRes := { exitCode := 1, stderr := "ERROR: boom\n".data },
    metadata := some "{}", metaRefs := some ["sha256:abc"] }

/-- Execution pass exits non-zero with whitespace-only stderr. -/
def envWsErr : Env :=
  { envBase with execRes := { exitCode := 1, stderr := " ".data } }

/-- Execution pass fails; stderr ends in a trailing-padded error line. -/
def envBadExec : Env :=
  { envBase with
    execRes := { exitCode := 1, stderr := "warning\nerror: bad \n".data } }

/-- The print pass itself exits non-zero. -/
def envPrintFail : Env :=
  { envBase with printExitCode := 1 }

/-- Metadata yields two refs while the history store is non-empty. -/
def envMetaPair : Env :=
  { envBase with
    metaRefs := some ["a", "b"],
    history := [{ ref := "h1", builderName := "default", createdAt := 9 }] }

/-- No metadata refs; history holds one record from before the start
timestamp (`t = 4 < 5`) and one from after (`t = 6 ≥ 5`), both for the
default builder `X`. -/
def envHist : Env :=
  { envBase with
    defaultBuilderName := "X",
    history := [{ ref := "sha-old", builderName := "X", createdAt := 4 },
                { ref := "sha-new", builderName := "X", createdAt := 6 }] }

/-- Persisted state with no build refs but a recorded temp directory. -/
def stNoRefs : PersistedState :=
  { buildRefs := [], tmpDir := "/tmp/docker-actions-toolkit-xyz",
    builder := some { name := "default", driver := "docker-container" } }

/-- Persisted state with one build ref and a recorded temp directory. -/
def stWithRefs : PersistedState :=
  { stNoRefs with buildRefs := ["sha256:abc"] }

/-- Post-phase environment where every finalization step succeeds. -/
def postEnvPlain : PostEnv :=
  { noSummaryEnv := none, parsedNoSummary := false, exportFail := none,
    uploadFail := none, summaryFail := none }

/-- Post-phase environment where the history export throws. -/
def postEnvExportFail : PostEnv :=
  { postEnvPlain with exportFail := some "read tcp: connection reset".data }

/-! ## Claim theorems -/

/-- C1: once the execution pass runs (the print pass exited 0), a fatal
error is declared — the main phase ends in the deferred `bakeError` — iff
the execution pass exit code is non-zero AND the captured stderr is
non-empty; a non-zero exit with empty stderr, or a zero exit with non-empty
stderr, leaves the phase successful. -/
theorem exec_fatal_iff_nonzero_and_stderr (env : Env)
    (h : env.printExitCode = 0) :
    (∃ m, (mainPhase env).2 = MainOutcome.bakeError m) ↔
      (env.execRes.exitCode ≠ 0 ∧ env.execRes.stderr ≠ []) := by
  by_cases hc : env.execRes.stderr ≠ [] ∧ env.execRes.exitCode ≠ 0
  · simp [mainPhase, h, List.length_pos, hc.1, hc.2]
  · simp only [mainPhase, h, List.length_pos] at *
    simp [hc]
    tauto

theorem exec_fatal_iff_nonzero_and_stderr_witness :
    ∃ m, (mainPhase envFatal).2 = MainOutcome.bakeError m :=
  (exec_fatal_iff_nonzero_and_stderr envFatal rfl).mpr (by decide)

/-- C4: when the metadata document yields embedded reference identifiers
(`resolveRefs` returns an array, truthy even when empty), `buildRefs`
returns exactly those identifiers and performs no external call at all —
in particular it never inspects the builder or queries the history store,
whatever the store contains. -/
theorem metadata_refs_returned_verbatim (env : Env) (rs : List String)
    (h : env.metaRefs = some rs) :
    buildRefsModel env = ([], rs) := by
  simp [buildRefsModel, h]

theorem metadata_refs_returned_verbatim_witness :
    buildRefsModel envMetaPair = ([], ["a", "b"]) :=
  metadata_refs_returned_verbatim envMetaPair ["a", "b"] rfl

/-- C5 (code bug evidence): on the failing input — a successful run with no
metadata refs and an empty history store — the main phase stores the empty
ref list and the `'No build refs found'` warning branch is NOT taken:
`buildRefs` returns an array, and an array is always truthy in JavaScript,
so the `else` branch of line 158 is unreachable. -/
theorem empty_refs_no_warning_emitted :
    Event.setBuildRefsEv [] ∈ (mainPhase envBase).1 ∧
      Event.warnNoBuildRefs ∉ (mainPhase envBase).1 := by
  decide

/-- C6: a non-zero exit of the print pass aborts the main phase at once
(`Exec.exec` throws): the trace stops at the print invocation — run with
the same command, working directory and environment as the execution pass
would use, and with the single extra `--print` flag appended to otherwise
identical arguments — and no execution pass is ever attempted.  The last
conjunct records the two invocations side by side for any run whose print
pass succeeds. -/
theorem print_pass_failure_aborts (env : Env) (h : env.printExitCode ≠ 0) :
    (mainPhase env).1 =
      [Event.execPrint env.command (env.args ++ ["--print"]) env.workdir
        env.buildEnv] ∧
    (mainPhase env).2 = MainOutcome.printError ∧
    (∀ c a w e, Event.execRun c a w e ∉ (mainPhase env).1) ∧
    (∀ env2 : Env, env2.printExitCode = 0 →
      (mainPhase env2).1.take 2 =
        [Event.execPrint env2.command (env2.args ++ ["--print"]) env2.workdir
           env2.buildEnv,
         Event.execRun env2.command env2.args env2.workdir env2.buildEnv]) := by
  refine ⟨by simp [mainPhase, h], by simp [mainPhase, h], ?_, ?_⟩
  · intro c a w e
    simp [mainPhase, h]
  · intro env2 h2
    by_cases hc : 0 < env2.execRes.stderr.length ∧ env2.execRes.exitCode ≠ 0 <;>
      simp [mainPhase, h2, hc]

theorem print_pass_failure_aborts_witness :
    (mainPhase envPrintFail).1 =
      [Event.execPrint "docker" ["buildx", "bake", "--print"] "."
        [("BUILDX_BAKE_GIT_AUTH_TOKEN", "tok")]] ∧
    (mainPhase envPrintFail).2 = MainOutcome.printError := by
  have h := print_pass_failure_aborts envPrintFail (by decide)
  exact ⟨h.1, h.2.1⟩

/-- C8: in the post phase, empty persisted BuildRefs means no export, no
upload and no summary call; independently, a recorded (non-empty) temp
directory is still removed — indeed it is then the only action taken. -/
theorem post_skips_summary_when_no_refs (st : PersistedState) (env : PostEnv)
    (h : st.buildRefs = []) :
    (∀ rs, Event.exportEv rs ∉ postPhase st env) ∧
    Event.uploadEv ∉ postPhase st env ∧
    Event.writeSummaryEv ∉ postPhase st env ∧
    (0 < st.tmpDir.length → postPhase st env = [Event.rmTmpDir st.tmpDir]) := by
  by_cases ht : 0 < st.tmpDir.length <;> simp [postPhase, h, ht]

theorem post_skips_summary_when_no_refs_witness :
    (∀ rs, Event.exportEv rs ∉ postPhase stNoRefs postEnvPlain) ∧
    postPhase stNoRefs postEnvPlain =
      [Event.rmTmpDir "/tmp/docker-actions-toolkit-xyz"] := by
  have h := post_skips_summary_when_no_refs stNoRefs postEnvPlain rfl
  exact ⟨h.1, h.2.2.2 (by decide)⟩

/-- Helper: the post phase never throws — every event it emits is a log,
store, export, upload, summary or cleanup action, never an error throw. -/
theorem post_no_throw (st : PersistedState) (env : PostEnv) (msg : List Char) :
    Event.throwErrorEv msg ∉ postPhase st env := by
  obtain ⟨ns, pb, ef, uf, sf⟩ := env
  rcases ef with _ | m1 <;> rcases uf with _ | m2 <;> rcases sf with _ | m3 <;>
    by_cases h1 : 0 < st.buildRefs.length <;>
    by_cases h2 : (jsTruthyStr ns && pb) = true <;>
    by_cases h3 : cloudDriver st.builder = true <;>
    by_cases h4 : 0 < st.tmpDir.length <;>
    simp [postPhase, summaryChain, h1, h2, h3, h4]

/-- C2: when the execution pass is classified fatal, the error is not
raised at the classification point: the `throwErrorEv` is the very last
event of the main-phase trace, and both metadata resolution and
build-reference resolution (ending in `setBuildRefs`) happen strictly
before it. -/
theorem fatal_error_deferred_to_end (env : Env) (h0 : env.printExitCode = 0)
    (h1 : env.execRes.exitCode ≠ 0) (h2 : env.execRes.stderr ≠ []) :
    (mainPhase env).2 = MainOutcome.bakeError (bakeFailMsg env.execRes.stderr) ∧
    (mainPhase env).1.getLast? =
      some (Event.throwErrorEv (bakeFailMsg env.execRes.stderr)) ∧
    Event.resolveMetadataEv ∈ (mainPhase env).1.dropLast ∧
    Event.setBuildRefsEv (buildRefsModel env).2 ∈ (mainPhase env).1.dropLast := by
  have hc : 0 < env.execRes.stderr.length ∧ env.execRes.exitCode ≠ 0 :=
    ⟨List.length_pos.mpr h2, h1⟩
  obtain ⟨T, hT, hmeta, hrefs⟩ : ∃ T,
      (mainPhase env).1 =
        T ++ [Event.throwErrorEv (bakeFailMsg env.execRes.stderr)] ∧
      Event.resolveMetadataEv ∈ T ∧
      Event.setBuildRefsEv (buildRefsModel env).2 ∈ T := by
    refine ⟨Event.execPrint env.command (env.args ++ ["--print"]) env.workdir
        env.buildEnv ::
      Event.execRun env.command env.args env.workdir env.buildEnv ::
      ((Event.resolveMetadataEv ::
          (match env.metadata with
            | some doc => [Event.outputMetadata doc]
            | none => [])) ++
        (buildRefsModel env).1 ++
        ((buildRefsModel env).2.map Event.logRef ++
          [Event.setBuildRefsEv (buildRefsModel env).2])), ?_, by simp, by simp⟩
    simp [mainPhase, h0, hc]
  refine ⟨by simp [mainPhase, h0, hc], ?_, ?_, ?_⟩
  · rw [hT, List.getLast?_concat]
  · rw [hT, List.dropLast_concat]
    exact hmeta
  · rw [hT, List.dropLast_concat]
    exact hrefs

theorem fatal_error_deferred_to_end_witness :
    (mainPhase envFatal).2 =
      MainOutcome.bakeError (bakeFailMsg envFatal.execRes.stderr) ∧
    Event.resolveMetadataEv ∈ (mainPhase envFatal).1.dropLast ∧
    Event.setBuildRefsEv (buildRefsModel envFatal).2 ∈
      (mainPhase envFatal).1.dropLast := by
  have h := fatal_error_deferred_to_end envFatal rfl (by decide) (by decide)
  exact ⟨h.1, h.2.2.1, h.2.2.2⟩

/-- C7: with no metadata refs and no explicitly provided builder name, the
resolver first inspects the default builder, then queries the history store
with that name and the orchestration start timestamp; the returned
identifiers are exactly those of records whose builder matches and whose
creation time is at or after the start timestamp — never a record from
strictly before it. -/
theorem history_fallback_window (env : Env) (h1 : env.metaRefs = none)
    (h2 : env.inputBuilder = "") :
    (buildRefsModel env).1 =
      [Event.inspectDefaultBuilder,
        Event.queryHistory env.defaultBuilderName env.startedTime] ∧
    (∀ x, x ∈ (buildRefsModel env).2 ↔
      ∃ r ∈ env.history, r.builderName = env.defaultBuilderName ∧
        env.startedTime ≤ r.createdAt ∧ r.ref = x) := by
  constructor
  · simp [buildRefsModel, h1, h2]
  · intro x
    simp only [buildRefsModel, h1, h2, buildxRefsQuery, if_pos,
      List.mem_map, List.mem_filter, Bool.and_eq_true, beq_iff_eq,
      decide_eq_true_eq]
    constructor
    · rintro ⟨r, ⟨hmem, hb, ht⟩, href⟩
      exact ⟨r, hmem, hb, ht, href⟩
    · rintro ⟨r, hmem, hb, ht, href⟩
      exact ⟨r, ⟨hmem, hb, ht⟩, href⟩

theorem history_fallback_window_witness :
    "sha-new" ∈ (buildRefsModel envHist).2 ∧
      "sha-old" ∉ (buildRefsModel envHist).2 := by
  have h := history_fallback_window envHist rfl rfl
  exact ⟨(h.2 "sha-new").mpr (by decide),
    fun hmem => absurd ((h.2 "sha-old").mp hmem) (by decide)⟩

/-- C9: if any step of the export/upload/summary chain throws, the failure
is caught and surfaced as a warning carrying the thrown message, the post
phase never raises an error of its own, and the recorded temp directory is
still removed afterwards — as the final event of the phase. -/
theorem summary_failure_nonfatal (st : PersistedState) (env : PostEnv)
    (m : List Char) (hrefs : st.buildRefs ≠ [])
    (hflag : (jsTruthyStr env.noSummaryEnv && env.parsedNoSummary) = false)
    (hdrv : cloudDriver st.builder = false)
    (hfail : env.exportFail = some m ∨
      (env.exportFail = none ∧ env.uploadFail = some m) ∨
      (env.exportFail = none ∧ env.uploadFail = none ∧
        env.summaryFail = some m)) :
    Event.warnEv m ∈ postPhase st env ∧
    (∀ msg, Event.throwErrorEv msg ∉ postPhase st env) ∧
    (0 < st.tmpDir.length →
      (postPhase st env).getLast? = some (Event.rmTmpDir st.tmpDir)) := by
  have hlen : 0 < st.buildRefs.length := List.length_pos.mpr hrefs
  refine ⟨?_, fun msg => post_no_throw st env msg, fun ht => ?_⟩
  · rcases hfail with hf | hf | hf
    · simp [postPhase, summaryChain, hlen, hflag, hdrv, hf]
    · simp [postPhase, summaryChain, hlen, hflag, hdrv, hf.1, hf.2]
    · simp [postPhase, summaryChain, hlen, hflag, hdrv, hf.1, hf.2.1, hf.2.2]
  · simp [postPhase, ht, List.getLast?_concat]

theorem summary_failure_nonfatal_witness :
    Event.warnEv "read tcp: connection reset".data ∈
      postPhase stWithRefs postEnvExportFail ∧
    (postPhase stWithRefs postEnvExportFail).getLast? =
      some (Event.rmTmpDir "/tmp/docker-actions-toolkit-xyz") := by
  have h := summary_failure_nonfatal stWithRefs postEnvExportFail
    "read tcp: connection reset".data (by decide) (by decide) (by decide)
    (Or.inl rfl)
  exact ⟨h.1, h.2.2 (by decide)⟩

/-- C10: `buildRefs` always returns an array — so the caller's truthiness
test always takes the `setBuildRefs` branch, with the possibly empty
resolved list, and the warning branch is never reached; moreover when the
metadata tier yields an empty array it is returned as-is, with no history
consultation. -/
theorem buildrefs_total_truthy_branch (env : Env)
    (h : env.printExitCode = 0) :
    Event.setBuildRefsEv (buildRefsModel env).2 ∈ (mainPhase env).1 ∧
    Event.warnNoBuildRefs ∉ (mainPhase env).1 ∧
    (env.metaRefs = some [] → buildRefsModel env = ([], [])) := by
  refine ⟨?_, ?_, fun hm => by simp [buildRefsModel, hm]⟩
  · by_cases hc : 0 < env.execRes.stderr.length ∧ env.execRes.exitCode ≠ 0 <;>
      simp [mainPhase, h, hc]
  · cases hm2 : env.metadata <;> cases hm : env.metaRefs <;>
      by_cases hb : env.inputBuilder = "" <;>
      by_cases hc : 0 < env.execRes.stderr.length ∧ env.execRes.exitCode ≠ 0 <;>
      simp [mainPhase, buildRefsModel, h, hc, hm2, hm, hb]

theorem buildrefs_total_truthy_branch_witness :
    Event.setBuildRefsEv (buildRefsModel envHist).2 ∈ (mainPhase envHist).1 ∧
      Event.warnNoBuildRefs ∉ (mainPhase envHist).1 := by
  have h := buildrefs_total_truthy_branch envHist rfl
  exact ⟨h.1, h.2.1⟩

/-! ## The execution-pass error message: regex versus "last non-blank line" -/

theorem lineTerm_ws {c : Char} (h : isLineTerm c = true) :
    jsWhitespace c = true := by
  simp only [isLineTerm, Bool.or_eq_true, decide_eq_true_eq] at h
  rcases h with ((h | h) | h) | h <;> subst h <;> decide

theorem allWs_regexHit {l : List Char} (h : l.all jsWhitespace = true) :
    regexHit l = true := by
  induction l with
  | nil => rfl
  | cons c rest ih =>
    rw [List.all_cons, Bool.and_eq_true] at h
    cases hLT : isLineTerm c
    · simpa [regexHit, hLT] using ih h.2
    · simpa [regexHit, hLT] using h.2

theorem regexLastMatch_ne_none (l : List Char) : regexLastMatch l ≠ none := by
  induction l with
  | nil => simp [regexLastMatch, regexHit]
  | cons c rest ih =>
    cases h : regexHit (c :: rest) <;> simp [regexLastMatch, h, ih]

theorem cons_headI_tail {α : Type} [Inhabited α] {l : List α} (h : l ≠ []) :
    l.headI :: l.tail = l := by
  cases l with
  | nil => exact absurd rfl h
  | cons a t => rfl

theorem splitLines_ne_nil (l : List Char) : splitLines l ≠ [] := by
  cases l with
  | nil => simp [splitLines]
  | cons c rest =>
    dsimp [splitLines]
    split <;> simp

theorem splitLines_cons_term {c : Char} {rest : List Char}
    (h : isLineTerm c = true) :
    splitLines (c :: rest) = [] :: splitLines rest := by
  simp [splitLines, h]

theorem splitLines_cons_plain {c : Char} {rest : List Char}
    (h : isLineTerm c = false) :
    splitLines (c :: rest) =
      (c :: (splitLines rest).headI) :: (splitLines rest).tail := by
  simp [splitLines, h]

theorem splitLines_dest (l : List Char) :
    ∃ h0 t0, splitLines l = h0 :: t0 := by
  cases hsp : splitLines l with
  | nil => exact absurd hsp (splitLines_ne_nil l)
  | cons a b => exact ⟨a, b, rfl⟩

theorem allWs_lines {l : List Char} (h : l.all jsWhitespace = true) :
    ∀ L ∈ splitLines l, L.all jsWhitespace = true := by
  induction l with
  | nil =>
    intro L hL
    simp [splitLines] at hL
    simp [hL]
  | cons c rest ih =>
    rw [List.all_cons, Bool.and_eq_true] at h
    obtain ⟨h0, t0, hsp⟩ := splitLines_dest rest
    intro L hL
    cases hLT : isLineTerm c
    · rw [splitLines_cons_plain hLT, hsp] at hL
      simp only [List.headI_cons, List.tail_cons] at hL
      rcases List.mem_cons.mp hL with hL | hL
      · subst hL
        rw [List.all_cons, Bool.and_eq_true]
        exact ⟨h.1, ih h.2 h0 (by rw [hsp]; exact List.mem_cons_self _ _)⟩
      · exact ih h.2 L (by rw [hsp]; exact List.mem_cons_of_mem _ hL)
    · rw [splitLines_cons_term hLT] at hL
      rcases List.mem_cons.mp hL with hL | hL
      · simp [hL]
      · exact ih h.2 _ hL

theorem lines_allWs {l : List Char}
    (h : ∀ L ∈ splitLines l, L.all jsWhitespace = true) :
    l.all jsWhitespace = true := by
  induction l with
  | nil => rfl
  | cons c rest ih =>
    rw [List.all_cons, Bool.and_eq_true]
    obtain ⟨h0, t0, hsp⟩ := splitLines_dest rest
    cases hLT : isLineTerm c
    · rw [splitLines_cons_plain hLT, hsp] at h
      simp only [List.headI_cons, List.tail_cons] at h
      have hhead := h _ (List.mem_cons_self _ _)
      rw [List.all_cons, Bool.and_eq_true] at hhead
      refine ⟨hhead.1, ih ?_⟩
      intro L hL
      rw [hsp] at hL
      rcases List.mem_cons.mp hL with hL | hL
      · subst hL
        exact hhead.2
      · exact h _ (List.mem_cons_of_mem _ hL)
    · rw [splitLines_cons_term hLT] at h
      refine ⟨lineTerm_ws hLT, ih ?_⟩
      intro L hL
      exact h _ (List.mem_cons_of_mem _ hL)

theorem no_hit_nonblank_tail {l : List Char} (h : regexHit l = false) :
    ∃ L ∈ (splitLines l).tail, L.all jsWhitespace = false := by
  induction l with
  | nil => simp [regexHit] at h
  | cons c rest ih =>
    cases hLT : isLineTerm c
    · rw [regexHit, hLT] at h
      simp only [Bool.false_eq_true, if_false] at h
      rw [splitLines_cons_plain hLT]
      simpa using ih h
    · rw [regexHit, hLT] at h
      simp only [if_true] at h
      rw [splitLines_cons_term hLT]
      simp only [List.tail_cons]
      by_contra hall
      push_neg at hall
      have : rest.all jsWhitespace = true := by
        refine lines_allWs ?_
        intro L hL
        have := hall L hL
        simpa [Bool.not_eq_false] using this
      rw [this] at h
      exact absurd h (by simp)

/-- The executable matcher condition agrees with the regex reading:
the pattern `(.*)\s*$` matches the whole of `l` iff `l` factors as a
line-terminator-free run (`.*`) followed by a whitespace run (`\s*`). -/
theorem regexHit_iff_factor {l : List Char} :
    regexHit l = true ↔
      ∃ a w, l = a ++ w ∧ (∀ c ∈ a, isLineTerm c = false) ∧
        (∀ c ∈ w, jsWhitespace c = true) := by
  induction l with
  | nil =>
    refine ⟨fun _ => ⟨[], [], rfl, by simp, by simp⟩, fun _ => rfl⟩
  | cons c rest ih =>
    cases hLT : isLineTerm c
    · rw [regexHit, hLT]
      simp only [Bool.false_eq_true, if_false]
      rw [ih]
      constructor
      · rintro ⟨a, w, heq, hna, hwa⟩
        exact ⟨c :: a, w, by rw [heq, List.cons_append],
          fun x hx => by
            rcases List.mem_cons.mp hx with hx | hx
            · rwa [hx]
            · exact hna x hx,
          hwa⟩
      · rintro ⟨a, w, heq, hna, hwa⟩
        cases a with
        | nil =>
          refine ⟨[], rest, rfl, by simp, ?_⟩
          intro x hx
          refine hwa x ?_
          rw [List.nil_append] at heq
          rw [← heq]
          exact List.mem_cons_of_mem _ hx
        | cons a0 a1 =>
          rw [List.cons_append] at heq
          injection heq with hc hrest
          refine ⟨a1, w, hrest, fun x hx => hna x (List.mem_cons_of_mem _ hx),
            hwa⟩
    · rw [regexHit, hLT]
      simp only [if_true]
      constructor
      · intro h
        refine ⟨[], c :: rest, rfl, by simp, ?_⟩
        intro x hx
        rcases List.mem_cons.mp hx with hx | hx
        · rw [hx]
          exact lineTerm_ws hLT
        · exact (List.all_eq_true.mp h) x hx
      · rintro ⟨a, w, heq, hna, hwa⟩
        cases a with
        | nil =>
          rw [List.nil_append] at heq
          refine List.all_eq_true.mpr fun x hx => hwa x ?_
          rw [← heq]
          exact List.mem_cons_of_mem _ hx
        | cons a0 a1 =>
          rw [List.cons_append] at heq
          injection heq with hc _
          have := hna a0 (List.mem_cons_self _ _)
          rw [← hc] at this
          rw [this] at hLT
          exact absurd hLT (by simp)

theorem dropWhile_append_all {α : Type} {p : α → Bool} {u v : List α}
    (h : ∀ c ∈ u, p c = true) :
    (u ++ v).dropWhile p = v.dropWhile p := by
  induction u with
  | nil => rfl
  | cons a u ih =>
    rw [List.cons_append, List.dropWhile_cons, h a (List.mem_cons_self _ _)]
    simp only [if_true]
    exact ih fun c hc => h c (List.mem_cons_of_mem _ hc)

theorem dropWhile_append_ne_nil {α : Type} {p : α → Bool} {u : List α}
    (v : List α) (h : u.dropWhile p ≠ []) :
    (u ++ v).dropWhile p = u.dropWhile p ++ v := by
  induction u with
  | nil => exact absurd rfl h
  | cons a u ih =>
    rw [List.cons_append, List.dropWhile_cons, List.dropWhile_cons]
    cases hp : p a
    · simp only [Bool.false_eq_true, if_false, List.cons_append]
    · simp only [if_true]
      rw [List.dropWhile_cons, hp] at h
      simp only [if_true] at h
      exact ih h

theorem dropTrailingWs_append_ws {a w : List Char}
    (h : ∀ c ∈ w, jsWhitespace c = true) :
    dropTrailingWs (a ++ w) = dropTrailingWs a := by
  unfold dropTrailingWs
  rw [List.reverse_append]
  rw [dropWhile_append_all]
  intro c hc
  exact h c (List.mem_reverse.mp hc)

theorem allWs_jsTrim {l : List Char} (h : ∀ c ∈ l, jsWhitespace c = true) :
    jsTrim l = [] := by
  unfold jsTrim
  have hnil : l.dropWhile jsWhitespace = [] := by
    induction l with
    | nil => rfl
    | cons c rest ih =>
      rw [List.dropWhile_cons, h c (List.mem_cons_self _ _)]
      simp only [if_true]
      exact ih fun x hx => h x (List.mem_cons_of_mem _ hx)
  rw [hnil]
  rfl

theorem jsTrim_append_ws {a w : List Char}
    (h : ∀ c ∈ w, jsWhitespace c = true) :
    jsTrim (a ++ w) = jsTrim a := by
  by_cases ha : a.dropWhile jsWhitespace = []
  · have haw : ∀ c ∈ a, jsWhitespace c = true := by
      intro c hc
      by_contra hcw
      have := List.dropWhile_eq_nil_iff.mp ha
      exact hcw (this c hc)
    rw [allWs_jsTrim, allWs_jsTrim haw]
    intro c hc
    rcases List.mem_append.mp hc with hc | hc
    · exact haw c hc
    · exact h c hc
  · unfold jsTrim
    rw [dropWhile_append_ne_nil w ha, dropTrailingWs_append_ws h]

theorem splitLines_append_plain {a w : List Char}
    (ha : ∀ c ∈ a, isLineTerm c = false) :
    splitLines (a ++ w) =
      (a ++ (splitLines w).headI) :: (splitLines w).tail := by
  induction a with
  | nil =>
    rw [List.nil_append, List.nil_append]
    exact (cons_headI_tail (splitLines_ne_nil w)).symm
  | cons c a1 ih =>
    rw [List.cons_append,
      splitLines_cons_plain (ha c (List.mem_cons_self _ _)),
      ih fun x hx => ha x (List.mem_cons_of_mem _ hx)]
    simp [List.cons_append]

theorem getLast?_cons_of_ne_nil {α : Type} (x : α) {l : List α}
    (h : l ≠ []) : (x :: l).getLast? = l.getLast? := by
  cases l with
  | nil => exact absurd rfl h
  | cons a t => rw [List.getLast?_cons_cons]

theorem getLast?_filter_cons {α : Type} (p : α → Bool) (x : α)
    (t : List α) (h : t.filter p ≠ []) :
    ((x :: t).filter p).getLast? = (t.filter p).getLast? := by
  rw [List.filter_cons]
  split
  · exact getLast?_cons_of_ne_nil _ h
  · rfl

/-- What line 139 actually computes: the leftmost match of `(.*)\s*$`,
trimmed, equals the trimmed last non-blank line of stderr when one exists,
and the empty string when stderr is all whitespace.  (The `'unknown error'`
fallback never contributes: the regex matches every string.) -/
theorem extract_eq_specLastLine (l : List Char) :
    extractMsg l = specLastLineTrimmed l := by
  induction l with
  | nil => decide
  | cons c rest ih =>
    cases hHit : regexHit (c :: rest)
    · -- no match at the head: the matcher moves right; the head character
      -- belongs to a line that cannot be the last non-blank one.
      have hstep : extractMsg (c :: rest) = extractMsg rest := by
        simp only [extractMsg, regexLastMatch, hHit, Bool.false_eq_true,
          if_false]
      rw [hstep, ih]
      have hlast : lastNonBlankLine (c :: rest) = lastNonBlankLine rest := by
        cases hLT : isLineTerm c
        · -- plain character: its line gains a character, but a later line
          -- is non-blank, so the last non-blank line is unchanged.
          have hHr : regexHit rest = false := by
            rw [regexHit, hLT] at hHit
            simpa using hHit
          obtain ⟨L, hLmem, hLnb⟩ := no_hit_nonblank_tail hHr
          obtain ⟨h0, t0, hsp⟩ := splitLines_dest rest
          rw [hsp, List.tail_cons] at hLmem
          have hfne : t0.filter (fun L => !L.all jsWhitespace) ≠ [] :=
            List.ne_nil_of_mem
              (List.mem_filter.mpr ⟨hLmem, by simp [hLnb]⟩)
          unfold lastNonBlankLine
          rw [splitLines_cons_plain hLT, hsp, List.headI_cons,
            List.tail_cons, getLast?_filter_cons _ _ _ hfne,
            getLast?_filter_cons _ _ _ hfne]
        · -- line terminator: it opens a fresh blank line which the
          -- non-blank filter discards.
          unfold lastNonBlankLine
          rw [splitLines_cons_term hLT, List.filter_cons]
          simp only [List.all_nil, Bool.not_true, Bool.false_eq_true,
            if_false]
      unfold specLastLineTrimmed
      rw [hlast]
    · -- the whole of `c :: rest` matches: it is a line-terminator-free
      -- run followed by whitespace.
      have hsome : regexLastMatch (c :: rest) = some (c :: rest) := by
        simp only [regexLastMatch, hHit, if_true]
      have hstep : extractMsg (c :: rest) = jsTrim (c :: rest) := by
        simp only [extractMsg, hsome]
      rw [hstep]
      by_cases hall : ∀ x ∈ c :: rest, jsWhitespace x = true
      · -- all whitespace: both sides are empty.
        rw [allWs_jsTrim hall]
        have hblank := allWs_lines (List.all_eq_true.mpr hall)
        unfold specLastLineTrimmed lastNonBlankLine
        have hfilter :
            (splitLines (c :: rest)).filter (fun L => !L.all jsWhitespace)
              = [] := by
          refine List.filter_eq_nil_iff.mpr fun L hL => ?_
          simp [hblank L hL]
        rw [hfilter]
        rfl
      · -- some character is non-whitespace: it lives in the `.*` part,
        -- so the first line is the unique non-blank line.
        obtain ⟨a, w, heq, hna, hwa⟩ := regexHit_iff_factor.mp hHit
        obtain ⟨h0, t0, hspw⟩ := splitLines_dest w
        have hwall : w.all jsWhitespace = true := List.all_eq_true.mpr hwa
        have hlinesw := allWs_lines hwall
        have hh0 : ∀ x ∈ h0, jsWhitespace x = true := by
          intro x hx
          refine List.all_eq_true.mp
            (hlinesw h0 (by rw [hspw]; exact List.mem_cons_self _ _)) x hx
        have ht0 : ∀ L ∈ t0, L.all jsWhitespace = true := by
          intro L hL
          exact hlinesw L (by rw [hspw]; exact List.mem_cons_of_mem _ hL)
        push_neg at hall
        obtain ⟨x, hxmem, hxw⟩ := hall
        have hxa : x ∈ a := by
          rw [heq] at hxmem
          rcases List.mem_append.mp hxmem with hx | hx
          · exact hx
          · rw [hwa x hx] at hxw
            exact absurd hxw (by simp)
        have hfirst : (a ++ h0).all jsWhitespace = false := by
          rw [Bool.eq_false_iff]
          intro hcontra
          have := List.all_eq_true.mp hcontra x (List.mem_append_left _ hxa)
          rw [this] at hxw
          exact absurd hxw (by simp)
        have hlines : splitLines (c :: rest) = (a ++ h0) :: t0 := by
          rw [heq, splitLines_append_plain hna, hspw, List.headI_cons,
            List.tail_cons]
        unfold specLastLineTrimmed lastNonBlankLine
        rw [hlines, List.filter_cons]
        have hfilt0 : t0.filter (fun L => !L.all jsWhitespace) = [] := by
          refine List.filter_eq_nil_iff.mpr fun L hL => ?_
          simp [ht0 L hL]
        simp only [hfirst, Bool.not_false, if_true, hfilt0]
        have hgl : ((a ++ h0) :: ([] : List (List Char))).getLast?
            = some (a ++ h0) := rfl
        rw [hgl]
        show jsTrim (c :: rest) = jsTrim (a ++ h0)
        rw [heq, jsTrim_append_ws hwa, jsTrim_append_ws hh0]

/-- C3 counterexample.  First input: the execution pass exits 1 with stderr
`" "` — a declared failure whose stderr has no non-empty line.  The claim
says the message then falls back to `'unknown error'`; in fact
`String.match` with `/(.*)\s*$/` never returns `null`, so the `??` fallback
is dead and the thrown message is `"buildx bake failed with: "` with an
empty extraction.  Second input: for stderr `"  err\n"` the last non-empty
line with only TRAILING whitespace trimmed would be `"  err"`, but `trim`
also strips the leading whitespace, giving `"err"`. -/
theorem whitespace_stderr_no_fallback :
    ((mainPhase envWsErr).2 =
        MainOutcome.bakeError ("buildx bake failed with: ".data) ∧
      ("buildx bake failed with: ".data : List Char) ≠
        "buildx bake failed with: unknown error".data) ∧
    (extractMsg "  err\n".data = "err".data ∧
      ("err".data : List Char) ≠ "  err".data) := by
  refine ⟨⟨?_, ?_⟩, ?_, ?_⟩ <;> decide

/-- C3 as amended: for every declared execution-pass failure, the surfaced
message is the fixed `buildx bake failed with: ` header followed by the
last non-blank line of stderr trimmed of leading and trailing whitespace —
the empty string when stderr is entirely whitespace; the regex match never
fails, so the `'unknown error'` fallback is unreachable. -/
theorem fail_message_is_trimmed_last_nonblank (env : Env)
    (h0 : env.printExitCode = 0) (h1 : env.execRes.exitCode ≠ 0)
    (h2 : env.execRes.stderr ≠ []) :
    (mainPhase env).2 =
      MainOutcome.bakeError
        ("buildx bake failed with: ".data ++
          specLastLineTrimmed env.execRes.stderr) ∧
    regexLastMatch env.execRes.stderr ≠ none := by
  have hc : 0 < env.execRes.stderr.length ∧ env.execRes.exitCode ≠ 0 :=
    ⟨List.length_pos.mpr h2, h1⟩
  refine ⟨?_, regexLastMatch_ne_none _⟩
  have hout : (mainPhase env).2 =
      MainOutcome.bakeError (bakeFailMsg env.execRes.stderr) := by
    simp [mainPhase, h0, hc]
  rw [hout, bakeFailMsg, extract_eq_specLastLine]

theorem fail_message_is_trimmed_last_nonblank_witness :
    (mainPhase envBadExec).2 =
      MainOutcome.bakeError
        ("buildx bake failed with: ".data ++
          specLastLineTrimmed envBadExec.execRes.stderr) :=
  (fail_message_is_trimmed_last_nonblank envBadExec rfl (by decide)
    (by decide)).1

example :
    "buildx bake failed with: ".data ++
        specLastLineTrimmed envBadExec.execRes.stderr =
      "buildx bake failed with: error: bad".data := by decide
